import Mathlib

/-!
Verification of the storage repository: a shallow embedding of the
aggregate-root data model (api/domain/aggregate_root.py), the repository
constructor check (common/infrastructure/aggregate_root_repository.py), the
in-memory repository (api/infrastructure/in_memory_aggregate_root_repository.py)
and the thread-offload asynchronous wrapper
(common/infrastructure/async_aggregate_root_repository.py), together with
theorems settling the specification's claims about them.

Stateful Python methods are embedded in state-passing style: a method of the
in-memory repository becomes a function from the repository value (its `self`)
and the method's arguments to the pair of the returned value and the
repository value after the call, so that mutation of `self._storage` is
explicit.  The backing `dict[str, T]` is embedded as an association list in
insertion order with Python's dict semantics: assignment to a key already
present updates that entry in place, assignment to a fresh key appends a new
entry at the end, so keys are never duplicated in any state reachable from an
empty dict.
-/

set_option autoImplicit false

/-- Base class of domain aggregates (class `AggregateRoot`): an entity whose
constructor stores a unique string identifier `_id`, exposed by the read-only
property `id`. -/
structure AggregateRoot where
  id : String

deriving instance DecidableEq for AggregateRoot

/-- Python subclasses of `AggregateRoot` (the instantiations of the type
variable `T = TypeVar('T', bound=AggregateRoot)`) are embedded as types
equipped with the inherited `id` property: a projection to the identifier
string. -/
class HasAggregateId (T : Type) where
  aggId : T → String

instance : HasAggregateId AggregateRoot where
  aggId := AggregateRoot.id

/-- The `id` property of an aggregate (`aggregate.id` in the source). -/
def aggId {T : Type} [HasAggregateId T] (a : T) : String :=
  HasAggregateId.aggId a

/-- A concrete domain aggregate used to instantiate the generic theorems:
a subclass of `AggregateRoot` with one extra field, as the base class's
docstring anticipates ("concrete domain aggregates should inherit from this
class and extend it with additional domain-specific state"). -/
structure Account where
  id : String
  balance : Nat

deriving instance DecidableEq for Account

instance : HasAggregateId Account where
  aggId := Account.id

/-! ### The backing dict

`self._storage : dict[str, T]` is embedded as `List (String × T)` in insertion
order, with the operations the source uses on it: membership test (`_id in
self._storage`), lookup with default `None` (`self._storage.get(_id)`), item
assignment (`self._storage[k] = v`), item deletion (`del self._storage[k]`),
`values()`, `keys()` and `clear()`. -/

/-- Membership test `k in d` on the backing dict. -/
def dictContains {T : Type} : List (String × T) → String → Bool
  | [], _ => false
  | (k', _) :: rest, k => if k' = k then true else dictContains rest k

/-- Lookup `d.get(k)` on the backing dict: the value stored at `k`, or `None`
when the key is absent. -/
def dictGet {T : Type} : List (String × T) → String → Option T
  | [], _ => none
  | (k', v) :: rest, k => if k' = k then some v else dictGet rest k

/-- Item assignment `d[k] = v` on the backing dict: updates the entry of an
existing key in place, otherwise appends the new entry at the end. -/
def dictSet {T : Type} : List (String × T) → String → T → List (String × T)
  | [], k, v => [(k, v)]
  | (k', v') :: rest, k, v =>
    if k' = k then (k, v) :: rest else (k', v') :: dictSet rest k v

/-- Item deletion `del d[k]` on the backing dict: removes the entry stored at
`k` (the first entry with that key; keys are unique in every dict). -/
def dictErase {T : Type} : List (String × T) → String → List (String × T)
  | [], _ => []
  | (k', v') :: rest, k => if k' = k then rest else (k', v') :: dictErase rest k

/-- The keys of a dict never repeat; association lists with this property are
exactly the states a Python `dict` can be in. -/
def keysNodup {T : Type} (s : List (String × T)) : Prop :=
  (s.map Prod.fst).Nodup

instance {T : Type} (s : List (String × T)) : Decidable (keysNodup s) :=
  List.nodupDecidable (s.map Prod.fst)

/-! ### The repository constructor check

`AggregateRootRepository.__init__` receives an arbitrary Python value as
`aggregate_type` and raises `TypeError` unless it is a type that is a subclass
of `AggregateRoot`.  The runtime values that may be passed are embedded as
either a class object — carrying the one fact the constructor inspects,
whether `AggregateRoot` is among its ancestors — or a value that is not a
class at all. -/

/-- A Python runtime value passed as the `aggregate_type` argument: a class
object (with the result of `issubclass(·, AggregateRoot)`, which is `true`
for `AggregateRoot` itself and all its subclasses) or a non-class value. -/
inductive PyValue where
  | cls (subclassOfAggregateRoot : Bool)
  | nonclass

deriving instance DecidableEq for PyValue

/-- The check `isinstance(aggregate_type, type)`. -/
def isinstanceType : PyValue → Bool
  | .cls _ => true
  | .nonclass => false

/-- The check `issubclass(aggregate_type, AggregateRoot)` (on a non-class
value the constructor never reaches this check; `false` there is arbitrary). -/
def issubclassAggregateRoot : PyValue → Bool
  | .cls b => b
  | .nonclass => false

/-- Message of the first `TypeError` of the constructor. -/
def msgMustBeType : String := "aggregate_type must be a type"

/-- Message of the second `TypeError` of the constructor. -/
def msgMustBeSubclass : String := "aggregate_type must be a subclass of AggregateRoot"

/-- A raised `TypeError` carrying its message. -/
structure TypeError where
  message : String

deriving instance DecidableEq for TypeError

/-- The constructor `AggregateRootRepository.__init__(self, aggregate_type)`:
raises `TypeError` if `aggregate_type` is not a type, then raises `TypeError`
if it is not a subclass of `AggregateRoot`, and otherwise stores it in
`self._aggregate_type` and succeeds. -/
def AggregateRootRepository.init (aggregate_type : PyValue) : Except TypeError PyValue :=
  if ¬ (isinstanceType aggregate_type = true) then
    Except.error ⟨msgMustBeType⟩
  else if ¬ (issubclassAggregateRoot aggregate_type = true) then
    Except.error ⟨msgMustBeSubclass⟩
  else
    Except.ok aggregate_type

/-! ### The in-memory repository -/

/-- Class `InMemoryAggregateRootRepository`, reduced to its one piece of
state: the backing dict `self._storage : dict[str, T]` mapping aggregate
identifiers to aggregate instances (the `_aggregate_type` field set by the
parent constructor plays no role in any operation and is not carried). -/
structure InMemoryAggregateRootRepository (T : Type) where
  storage : List (String × T)

deriving instance DecidableEq for InMemoryAggregateRootRepository

namespace InMemoryAggregateRootRepository

variable {T : Type} [HasAggregateId T]

/-- Method `exists(self, _id)`: `return _id in self._storage`. -/
def «exists» (r : InMemoryAggregateRootRepository T) (_id : String) :
    Bool × InMemoryAggregateRootRepository T :=
  (dictContains r.storage _id, r)

/-- Method `find(self, _id)`: `return self._storage.get(_id)`. -/
def find (r : InMemoryAggregateRootRepository T) (_id : String) :
    Option T × InMemoryAggregateRootRepository T :=
  (dictGet r.storage _id, r)

/-- Method `find_all(self, predicate=None)`: with no predicate,
`list(self._storage.values())`; with a predicate, the list comprehension
`[agg for agg in self._storage.values() if predicate(agg)]`. -/
def find_all (r : InMemoryAggregateRootRepository T) (predicate : Option (T → Bool)) :
    List T × InMemoryAggregateRootRepository T :=
  match predicate with
  | none => (r.storage.map Prod.snd, r)
  | some p => ((r.storage.map Prod.snd).filter p, r)

/-- Method `find_ids(self)`: `return list(self._storage.keys())`. -/
def find_ids (r : InMemoryAggregateRootRepository T) :
    List String × InMemoryAggregateRootRepository T :=
  (r.storage.map Prod.fst, r)

/-- Method `delete(self, aggregate)`: `if aggregate.id in self._storage: del
self._storage[aggregate.id]`. -/
def delete (r : InMemoryAggregateRootRepository T) (aggregate : T) :
    Unit × InMemoryAggregateRootRepository T :=
  if dictContains r.storage (aggId aggregate) then
    ((), ⟨dictErase r.storage (aggId aggregate)⟩)
  else
    ((), r)

/-- Method `delete_all(self)`: `self._storage.clear()`. -/
def delete_all (_r : InMemoryAggregateRootRepository T) :
    Unit × InMemoryAggregateRootRepository T :=
  ((), ⟨[]⟩)

/-- Method `save(self, aggregate)`: `self._storage[aggregate.id] = aggregate`. -/
def save (r : InMemoryAggregateRootRepository T) (aggregate : T) :
    Unit × InMemoryAggregateRootRepository T :=
  ((), ⟨dictSet r.storage (aggId aggregate) aggregate⟩)

/-- Loop body of `save_all`: `for aggregate in aggregates:
self._storage[aggregate.id] = aggregate`, one dict assignment per element in
list order. -/
def saveAllGo : List (String × T) → List T → List (String × T)
  | s, [] => s
  | s, a :: rest => saveAllGo (dictSet s (aggId a) a) rest

/-- Method `save_all(self, aggregates)`: the `for` loop over the list. -/
def save_all (r : InMemoryAggregateRootRepository T) (aggregates : List T) :
    Unit × InMemoryAggregateRootRepository T :=
  ((), ⟨saveAllGo r.storage aggregates⟩)

end InMemoryAggregateRootRepository

/-! ### The asynchronous wrapper

`AsyncAggregateRootRepository` composes over a synchronous implementation of
the contract: in the intended method resolution order `super().exists` and
its peers resolve to the in-memory implementation's methods, the only
synchronous implementation in the repository.  `trio.to_thread.run_sync` has
signature `run_sync(sync_fn, *args, thread_name=..., abandon_on_cancel=...,
limiter=...)` (older releases name the cancellation keyword `cancellable`):
it runs `sync_fn(*args)` on a worker thread and delivers its result to the
awaiting caller, and like any Python call it raises `TypeError` for a keyword
argument outside its signature before any work runs.  In a sequential model
the offload itself is unobservable, so an awaitable is embedded as what
awaiting it fully produces: either the raised `TypeError`, with the shared
repository state untouched, or the synchronous method's result together with
the state the call leaves behind. -/

/-- A Python awaitable yielding a value of type `α`: fully awaiting it
produces `run`. -/
structure Coroutine (α : Type) where
  run : α

/-- The keyword parameters `trio.to_thread.run_sync` accepts besides the
positional `sync_fn` and `*args`, across trio releases. -/
def runSyncAcceptedKwargs : List String :=
  ["thread_name", "abandon_on_cancel", "cancellable", "limiter"]

/-- Message of the `TypeError` Python raises when a call passes a keyword
argument outside the signature of `run_sync`. -/
def msgUnexpectedKwargArgs : String :=
  "run_sync() got an unexpected keyword argument args"

/-- Model of a call `trio.to_thread.run_sync(sync_fn, arg, **kwargs)` on a
bound repository method of one positional argument, with `kwargNames` the
names of the keyword arguments at the call site: if every keyword is one
`run_sync` accepts, the worker thread calls the method on the current shared
repository state with the given argument and the awaitable yields the
method's result together with the state the call leaves behind; otherwise the
call raises `TypeError` and the state is untouched. -/
def to_thread.run_sync {σ β γ : Type} (kwargNames : List String)
    (sync_fn : σ → γ → β × σ) (arg : γ) (s : σ) :
    Coroutine (Except TypeError β × σ) :=
  if kwargNames.all (fun n => runSyncAcceptedKwargs.contains n) then
    ⟨(Except.ok (sync_fn s arg).1, (sync_fn s arg).2)⟩
  else
    ⟨(Except.error ⟨msgUnexpectedKwargArgs⟩, s)⟩

/-- Model of a call `trio.to_thread.run_sync(sync_fn, **kwargs)` on a bound
repository method of no positional arguments, with the same keyword check. -/
def to_thread.run_sync0 {σ β : Type} (kwargNames : List String)
    (sync_fn : σ → β × σ) (s : σ) :
    Coroutine (Except TypeError β × σ) :=
  if kwargNames.all (fun n => runSyncAcceptedKwargs.contains n) then
    ⟨(Except.ok (sync_fn s).1, (sync_fn s).2)⟩
  else
    ⟨(Except.error ⟨msgUnexpectedKwargArgs⟩, s)⟩

namespace AsyncAggregateRootRepository

open InMemoryAggregateRootRepository

variable {T : Type} [HasAggregateId T]

/-- Method `exists_async(self, _id)`: `return to_thread.run_sync(super().exists,
_id, limiter=self._thread_limiter)` — one positional argument, one keyword
argument named `limiter`. -/
def exists_async (r : InMemoryAggregateRootRepository T) (_id : String) :
    Coroutine (Except TypeError Bool × InMemoryAggregateRootRepository T) :=
  to_thread.run_sync ["limiter"] «exists» _id r

/-- Method `find_async(self, _id)`: `return to_thread.run_sync(super().find,
_id, limiter=self._thread_limiter)`. -/
def find_async (r : InMemoryAggregateRootRepository T) (_id : String) :
    Coroutine (Except TypeError (Option T) × InMemoryAggregateRootRepository T) :=
  to_thread.run_sync ["limiter"] find _id r

/-- Method `find_all_async(self, predicate=None)`: `return
to_thread.run_sync(super().find_all, predicate, limiter=self._thread_limiter)`. -/
def find_all_async (r : InMemoryAggregateRootRepository T) (predicate : Option (T → Bool)) :
    Coroutine (Except TypeError (List T) × InMemoryAggregateRootRepository T) :=
  to_thread.run_sync ["limiter"] find_all predicate r

/-- Method `find_ids_async(self)`: `return to_thread.run_sync(super().find_ids,
args=(), limiter=self._thread_limiter)` — no positional argument, two keyword
arguments named `args` and `limiter`; `args` is outside the signature of
`run_sync`, so the call raises `TypeError` instead of running `find_ids`. -/
def find_ids_async (r : InMemoryAggregateRootRepository T) :
    Coroutine (Except TypeError (List String) × InMemoryAggregateRootRepository T) :=
  to_thread.run_sync0 ["args", "limiter"] find_ids r

/-- Method `delete_async(self, aggregate)`: `return
to_thread.run_sync(super().delete, aggregate, limiter=self._thread_limiter)`. -/
def delete_async (r : InMemoryAggregateRootRepository T) (aggregate : T) :
    Coroutine (Except TypeError Unit × InMemoryAggregateRootRepository T) :=
  to_thread.run_sync ["limiter"] delete aggregate r

/-- Method `delete_all_async(self)`: `return
to_thread.run_sync(super().delete_all, args=(), limiter=self._thread_limiter)`
— no positional argument, two keyword arguments named `args` and `limiter`;
`args` is outside the signature of `run_sync`, so the call raises `TypeError`
instead of running `delete_all`. -/
def delete_all_async (r : InMemoryAggregateRootRepository T) :
    Coroutine (Except TypeError Unit × InMemoryAggregateRootRepository T) :=
  to_thread.run_sync0 ["args", "limiter"] delete_all r

/-- Method `save_async(self, aggregate)`: `return
to_thread.run_sync(super().save, aggregate, limiter=self._thread_limiter)`. -/
def save_async (r : InMemoryAggregateRootRepository T) (aggregate : T) :
    Coroutine (Except TypeError Unit × InMemoryAggregateRootRepository T) :=
  to_thread.run_sync ["limiter"] save aggregate r

end AsyncAggregateRootRepository

/-- The eight operations of the repository contract, the abstract methods of
`AggregateRootRepository`. -/
inductive ContractOp where
  | «exists»
  | find
  | find_all
  | find_ids
  | delete
  | delete_all
  | save
  | save_all

deriving instance DecidableEq for ContractOp

/-- Which contract operations have an asynchronous counterpart on
`AsyncAggregateRootRepository`: the class body defines exactly the methods
`exists_async`, `find_async`, `find_all_async`, `find_ids_async`,
`delete_async`, `delete_all_async` and `save_async`; it defines no method
named `save_all_async`. -/
def asyncMethodDefined : ContractOp → Bool
  | .«exists» => true
  | .find => true
  | .find_all => true
  | .find_ids => true
  | .delete => true
  | .delete_all => true
  | .save => true
  | .save_all => false

/-! ### Lemmas about the backing dict -/

theorem dictContains_dictSet_self {T : Type} (s : List (String × T)) (k : String) (v : T) :
    dictContains (dictSet s k v) k = true := by
  induction s with
  | nil => simp [dictSet, dictContains]
  | cons hd tl ih =>
    obtain ⟨a, b⟩ := hd
    by_cases h : a = k
    · simp [dictSet, dictContains, h]
    · simp [dictSet, dictContains, h, ih]

theorem dictGet_dictSet_self {T : Type} (s : List (String × T)) (k : String) (v : T) :
    dictGet (dictSet s k v) k = some v := by
  induction s with
  | nil => simp [dictSet, dictGet]
  | cons hd tl ih =>
    obtain ⟨a, b⟩ := hd
    by_cases h : a = k
    · simp [dictSet, dictGet, h]
    · simp [dictSet, dictGet, h, ih]

theorem dictContains_dictSet_ne {T : Type} (s : List (String × T)) {k k' : String} (v : T)
    (h : k' ≠ k) : dictContains (dictSet s k' v) k = dictContains s k := by
  induction s with
  | nil => simp [dictSet, dictContains, h]
  | cons hd tl ih =>
    obtain ⟨a, b⟩ := hd
    by_cases ha : a = k'
    · subst ha
      simp [dictSet, dictContains, h]
    · by_cases hak : a = k
      · subst hak
        simp [dictSet, dictContains, ha]
      · simp [dictSet, dictContains, ha, hak, ih]

theorem dictGet_eq_none_of_not_contains {T : Type} (s : List (String × T)) (k : String)
    (h : dictContains s k = false) : dictGet s k = none := by
  induction s with
  | nil => rfl
  | cons hd tl ih =>
    obtain ⟨a, b⟩ := hd
    by_cases hak : a = k
    · simp [dictContains, hak] at h
    · simp [dictContains, hak] at h
      simp [dictGet, hak, ih h]

theorem dictContains_iff_mem {T : Type} (s : List (String × T)) (k : String) :
    dictContains s k = true ↔ k ∈ s.map Prod.fst := by
  induction s with
  | nil => simp [dictContains]
  | cons hd tl ih =>
    obtain ⟨a, b⟩ := hd
    by_cases hak : a = k
    · simp [dictContains, hak]
    · simp [dictContains, hak, Ne.symm hak, ih]

theorem keys_dictSet {T : Type} (s : List (String × T)) (k : String) (v : T) :
    (dictSet s k v).map Prod.fst =
      if dictContains s k = true then s.map Prod.fst else s.map Prod.fst ++ [k] := by
  induction s with
  | nil => simp [dictSet, dictContains]
  | cons hd tl ih =>
    obtain ⟨a, b⟩ := hd
    by_cases hak : a = k
    · simp [dictSet, dictContains, hak]
    · by_cases hc : dictContains tl k = true
      · simp [dictSet, dictContains, hak, ih, hc]
      · simp [dictSet, dictContains, hak, ih, hc]

theorem keysNodup_dictSet {T : Type} (s : List (String × T)) (k : String) (v : T)
    (h : keysNodup s) : keysNodup (dictSet s k v) := by
  unfold keysNodup at h ⊢
  rw [keys_dictSet]
  by_cases hc : dictContains s k = true
  · simpa [hc] using h
  · have hk : k ∉ s.map Prod.fst := fun hmem => hc ((dictContains_iff_mem s k).mpr hmem)
    simp [hc, List.nodup_append, h, hk]

theorem filter_eq_self_of_not_contains {T : Type} (s : List (String × T)) (k : String)
    (h : dictContains s k = false) :
    s.filter (fun p => !decide (p.1 = k)) = s := by
  induction s with
  | nil => rfl
  | cons hd tl ih =>
    obtain ⟨a, b⟩ := hd
    by_cases hak : a = k
    · simp [dictContains, hak] at h
    · simp [dictContains, hak] at h
      rw [List.filter_cons]
      simp [hak, ih h]

theorem dictErase_eq_filter {T : Type} (s : List (String × T)) (k : String)
    (h : keysNodup s) :
    dictErase s k = s.filter (fun p => !decide (p.1 = k)) := by
  induction s with
  | nil => rfl
  | cons hd tl ih =>
    obtain ⟨a, b⟩ := hd
    have hna : a ∉ tl.map Prod.fst := (List.nodup_cons.mp h).1
    have htl : keysNodup tl := (List.nodup_cons.mp h).2
    by_cases hak : a = k
    · subst hak
      have hc : dictContains tl a = false := by
        cases hcc : dictContains tl a with
        | false => rfl
        | true => exact absurd ((dictContains_iff_mem tl a).mp hcc) hna
      rw [List.filter_cons]
      simp [dictErase, filter_eq_self_of_not_contains tl a hc]
    · rw [List.filter_cons]
      simp [dictErase, hak, ih htl]

theorem dictContains_dictErase_self {T : Type} (s : List (String × T)) (k : String)
    (h : keysNodup s) :
    dictContains (dictErase s k) k = false := by
  rw [dictErase_eq_filter s k h]
  cases hc : dictContains (s.filter fun p => !decide (p.1 = k)) k with
  | false => rfl
  | true =>
    have hmem := (dictContains_iff_mem _ k).mp hc
    simp only [List.mem_map] at hmem
    obtain ⟨p, hp, hpk⟩ := hmem
    have hfil := (List.mem_filter.mp hp).2
    simp [hpk] at hfil

theorem dictContains_dictErase_false {T : Type} (s : List (String × T)) {k : String}
    (k' : String) (h : dictContains s k = false) :
    dictContains (dictErase s k') k = false := by
  induction s with
  | nil => rfl
  | cons hd tl ih =>
    obtain ⟨a, b⟩ := hd
    by_cases hak : a = k
    · simp [dictContains, hak] at h
    · simp [dictContains, hak] at h
      by_cases hak' : a = k'
      · simpa [dictErase, hak'] using h
      · simp [dictErase, dictContains, hak, hak', ih h]

/-! ### Mutation traces

The specification speaks about identities "never saved or already deleted";
these are properties of the sequence of mutating calls a store has seen since
construction (the repository starts with an empty dict), so mutating calls are
reified as a trace of operations applied in order. -/

/-- One mutating call of the repository contract. -/
inductive RepoOp (T : Type) where
  | save (a : T)
  | save_all (l : List T)
  | delete (a : T)
  | delete_all

/-- Whether a mutating call stores an aggregate under identity `k`. -/
def opSavesId {T : Type} [HasAggregateId T] : RepoOp T → String → Bool
  | .save a, k => decide (aggId a = k)
  | .save_all l, k => l.any (fun a => decide (aggId a = k))
  | .delete _, _ => false
  | .delete_all, _ => false

/-- Apply one mutating call to a repository state. -/
def applyOp {T : Type} [HasAggregateId T]
    (r : InMemoryAggregateRootRepository T) : RepoOp T → InMemoryAggregateRootRepository T
  | .save a => (InMemoryAggregateRootRepository.save r a).2
  | .save_all l => (InMemoryAggregateRootRepository.save_all r l).2
  | .delete a => (InMemoryAggregateRootRepository.delete r a).2
  | .delete_all => (InMemoryAggregateRootRepository.delete_all r).2

/-- Apply a trace of mutating calls in order. -/
def applyTrace {T : Type} [HasAggregateId T]
    (r : InMemoryAggregateRootRepository T) (t : List (RepoOp T)) :
    InMemoryAggregateRootRepository T :=
  t.foldl applyOp r

theorem saveAllGo_eq_foldl {T : Type} [HasAggregateId T] (l : List T)
    (s : List (String × T)) :
    InMemoryAggregateRootRepository.saveAllGo s l =
      l.foldl (fun s2 a => dictSet s2 (aggId a) a) s := by
  induction l generalizing s with
  | nil => rfl
  | cons a rest ih =>
    simp [InMemoryAggregateRootRepository.saveAllGo, ih]

theorem dictContains_saveAllGo_false {T : Type} [HasAggregateId T] (l : List T)
    (s : List (String × T)) {k : String} (hs : dictContains s k = false)
    (hl : ∀ a ∈ l, aggId a ≠ k) :
    dictContains (InMemoryAggregateRootRepository.saveAllGo s l) k = false := by
  induction l generalizing s with
  | nil => exact hs
  | cons a rest ih =>
    have h1 : dictContains (dictSet s (aggId a) a) k = false := by
      rw [dictContains_dictSet_ne s a (hl a (by simp))]
      exact hs
    exact ih (dictSet s (aggId a) a) h1 (fun x hx => hl x (by simp [hx]))

theorem dictContains_applyOp_false {T : Type} [HasAggregateId T]
    (r : InMemoryAggregateRootRepository T) (op : RepoOp T) {k : String}
    (h : dictContains r.storage k = false) (hop : opSavesId op k = false) :
    dictContains (applyOp r op).storage k = false := by
  cases op with
  | save a =>
    simp only [opSavesId, decide_eq_false_iff_not] at hop
    rw [applyOp, InMemoryAggregateRootRepository.save]
    rw [dictContains_dictSet_ne r.storage a hop]
    exact h
  | save_all l =>
    simp only [opSavesId, List.any_eq_false, decide_eq_true_eq] at hop
    rw [applyOp, InMemoryAggregateRootRepository.save_all]
    exact dictContains_saveAllGo_false l r.storage h hop
  | delete a =>
    by_cases hc : dictContains r.storage (aggId a) = true
    · simpa [applyOp, InMemoryAggregateRootRepository.delete, hc] using
        dictContains_dictErase_false r.storage (aggId a) h
    · simpa [applyOp, InMemoryAggregateRootRepository.delete, hc] using h
  | delete_all =>
    simp [applyOp, InMemoryAggregateRootRepository.delete_all, dictContains]

theorem dictContains_applyTrace_false {T : Type} [HasAggregateId T]
    (t : List (RepoOp T)) (r : InMemoryAggregateRootRepository T) {k : String}
    (h : dictContains r.storage k = false)
    (ht : ∀ op ∈ t, opSavesId op k = false) :
    dictContains (applyTrace r t).storage k = false := by
  induction t generalizing r with
  | nil => exact h
  | cons op rest ih =>
    have h1 := dictContains_applyOp_false r op h (ht op (by simp))
    simpa [applyTrace] using ih (applyOp r op) h1 (fun x hx => ht x (by simp [hx]))

/-- Whether a constructor call raised (any failure of the constructor is a
`TypeError`, the `Except` error type). -/
def raisesTypeError : Except TypeError PyValue → Bool
  | .error _ => true
  | .ok _ => false

theorem foldl_save_storage {T : Type} [HasAggregateId T] (l : List T)
    (r : InMemoryAggregateRootRepository T) :
    l.foldl (fun s a => (InMemoryAggregateRootRepository.save s a).2) r =
      ⟨l.foldl (fun s2 a => dictSet s2 (aggId a) a) r.storage⟩ := by
  induction l generalizing r with
  | nil => rfl
  | cons a rest ih =>
    simp only [List.foldl_cons]
    rw [ih]
    rfl

open InMemoryAggregateRootRepository AsyncAggregateRootRepository

/-! ### The claims -/

/-- C1: the claim that the async wrapper exposes, for every operation of the
contract, a `*_async` counterpart that forwards its arguments unchanged and,
awaited, yields the synchronous operation's result, fails on the code in
three places.  Five of the methods the class defines — `exists_async`,
`find_async`, `find_all_async`, `delete_async`, `save_async` — do forward
unchanged and, fully awaited, yield exactly the synchronous result and
resulting store state.  But `find_ids_async` and `delete_all_async` pass the
keyword argument `args=()`, which is outside the signature of
`trio.to_thread.run_sync`, so awaiting them raises `TypeError` with the store
untouched and never yields the synchronous result; and the contract operation
`save_all` has no asynchronous counterpart at all: the class body defines no
method `save_all_async`, although its own docstring announces async wrappers
around all synchronous repository operations. -/
theorem C1_async_wrapper_incomplete :
    asyncMethodDefined ContractOp.save_all = false ∧
    ∀ (T : Type) [HasAggregateId T] (r : InMemoryAggregateRootRepository T),
      (∀ k : String,
        (exists_async r k).run = (Except.ok («exists» r k).1, («exists» r k).2)) ∧
      (∀ k : String,
        (find_async r k).run = (Except.ok (find r k).1, (find r k).2)) ∧
      (∀ p : Option (T → Bool),
        (find_all_async r p).run = (Except.ok (find_all r p).1, (find_all r p).2)) ∧
      (find_ids_async r).run = (Except.error ⟨msgUnexpectedKwargArgs⟩, r) ∧
      (∀ a : T,
        (delete_async r a).run = (Except.ok (delete r a).1, (delete r a).2)) ∧
      (delete_all_async r).run = (Except.error ⟨msgUnexpectedKwargArgs⟩, r) ∧
      (∀ a : T,
        (save_async r a).run = (Except.ok (save r a).1, (save r a).2)) := by
  refine ⟨rfl, ?_⟩
  intro T _ r
  exact ⟨fun _ => rfl, fun _ => rfl, fun _ => rfl, rfl, fun _ => rfl, rfl, fun _ => rfl⟩

/-- C2: for every aggregate `a` with identity `aggId a` and every prior store
state, immediately after `save a` the store answers `exists (aggId a)` with
`True` and `find (aggId a)` with `a` itself. -/
theorem C2_save_then_exists_find {T : Type} [HasAggregateId T]
    (r : InMemoryAggregateRootRepository T) (a : T) :
    («exists» (save r a).2 (aggId a)).1 = true ∧
    (find (save r a).2 (aggId a)).1 = some a := by
  constructor
  · simpa [«exists», save] using dictContains_dictSet_self r.storage (aggId a) a
  · simpa [find, save] using dictGet_dictSet_self r.storage (aggId a) a

/-- C3: an identity `k` that was never saved — the store, starting empty at
construction, has seen an arbitrary trace of mutating calls none of which
stores an aggregate under `k` — has `exists k = False` and `find k = None`;
likewise immediately after `delete` of the entry at `k`.  `find` is embedded
as a total function: it returns the absent result `none` for a missing key
and cannot raise. -/
theorem C3_absent_lookup (T : Type) [HasAggregateId T] :
    (∀ (t : List (RepoOp T)) (k : String),
        (∀ op ∈ t, opSavesId op k = false) →
        («exists» (applyTrace ⟨[]⟩ t) k).1 = false ∧
        (find (applyTrace ⟨[]⟩ t) k).1 = none) ∧
    (∀ (r : InMemoryAggregateRootRepository T) (a : T),
        keysNodup r.storage →
        («exists» (delete r a).2 (aggId a)).1 = false ∧
        (find (delete r a).2 (aggId a)).1 = none) := by
  constructor
  · intro t k ht
    have hc : dictContains
        (applyTrace (⟨[]⟩ : InMemoryAggregateRootRepository T) t).storage k = false :=
      dictContains_applyTrace_false t ⟨[]⟩ rfl ht
    exact ⟨by simpa [«exists»] using hc,
      by simpa [find] using dictGet_eq_none_of_not_contains _ k hc⟩
  · intro r a h
    by_cases hc : dictContains r.storage (aggId a) = true
    · have h1 : dictContains (dictErase r.storage (aggId a)) (aggId a) = false :=
        dictContains_dictErase_self r.storage (aggId a) h
      refine ⟨?_, ?_⟩
      · simpa [«exists», delete, hc] using h1
      · simpa [find, delete, hc] using dictGet_eq_none_of_not_contains _ _ h1
    · have h0 : dictContains r.storage (aggId a) = false := by
        cases hcc : dictContains r.storage (aggId a) with
        | false => rfl
        | true => exact absurd hcc hc
      refine ⟨?_, ?_⟩
      · simp [«exists», delete, hc]
      · simpa [find, delete, hc] using dictGet_eq_none_of_not_contains _ _ h0

/-- Witness for C3 at concrete inputs: identity "b" after a trace that saves
and deletes only "a", and identity "c" right after its deletion. -/
theorem C3_absent_lookup_witness :
    ((«exists» (applyTrace (⟨[]⟩ : InMemoryAggregateRootRepository Account)
        [RepoOp.save ⟨"a", 1⟩, RepoOp.delete ⟨"a", 1⟩]) "b").1 = false ∧
     (find (applyTrace (⟨[]⟩ : InMemoryAggregateRootRepository Account)
        [RepoOp.save ⟨"a", 1⟩, RepoOp.delete ⟨"a", 1⟩]) "b").1 = none) ∧
    ((«exists» (delete (⟨[("c", ⟨"c", 5⟩)]⟩ : InMemoryAggregateRootRepository Account)
        ⟨"c", 5⟩).2 (aggId (⟨"c", 5⟩ : Account))).1 = false ∧
     (find (delete (⟨[("c", ⟨"c", 5⟩)]⟩ : InMemoryAggregateRootRepository Account)
        ⟨"c", 5⟩).2 (aggId (⟨"c", 5⟩ : Account))).1 = none) :=
  ⟨(C3_absent_lookup Account).1 _ "b" (by decide),
   (C3_absent_lookup Account).2 _ ⟨"c", 5⟩ (by decide)⟩

/-- C4: saving `a1` then `a2` with equal identities leaves only `a2`
retrievable at that identity, and the resulting store still holds at most one
entry per identity value. -/
theorem C4_save_overwrite {T : Type} [HasAggregateId T]
    (r : InMemoryAggregateRootRepository T) (a1 a2 : T)
    (hid : aggId a1 = aggId a2) (h : keysNodup r.storage) :
    (find ((save ((save r a1).2) a2).2) (aggId a1)).1 = some a2 ∧
    ∀ k : String, (((save ((save r a1).2) a2).2).storage.map Prod.fst).count k ≤ 1 := by
  constructor
  · rw [hid]
    simpa [find, save] using
      dictGet_dictSet_self (dictSet r.storage (aggId a1) a1) (aggId a2) a2
  · have h1 := keysNodup_dictSet r.storage (aggId a1) a1 h
    have h2 := keysNodup_dictSet (dictSet r.storage (aggId a1) a1) (aggId a2) a2 h1
    intro k
    have := List.nodup_iff_count_le_one.mp h2 k
    simpa [save] using this

/-- Witness for C4 at concrete inputs: two accounts with identity "x" saved
in sequence over a store holding "y". -/
theorem C4_save_overwrite_witness :
    (find ((save ((save (⟨[("y", ⟨"y", 7⟩)]⟩ : InMemoryAggregateRootRepository Account)
        ⟨"x", 1⟩).2) ⟨"x", 2⟩).2) (aggId (⟨"x", 1⟩ : Account))).1 = some ⟨"x", 2⟩ ∧
    ((((save ((save (⟨[("y", ⟨"y", 7⟩)]⟩ : InMemoryAggregateRootRepository Account)
        ⟨"x", 1⟩).2) ⟨"x", 2⟩).2).storage.map Prod.fst).count "x") ≤ 1 :=
  ⟨(C4_save_overwrite (⟨[("y", ⟨"y", 7⟩)]⟩ : InMemoryAggregateRootRepository Account)
      ⟨"x", 1⟩ ⟨"x", 2⟩ (by decide) (by decide)).1,
   (C4_save_overwrite (⟨[("y", ⟨"y", 7⟩)]⟩ : InMemoryAggregateRootRepository Account)
      ⟨"x", 1⟩ ⟨"x", 2⟩ (by decide) (by decide)).2 "x"⟩

/-- C5: `find_all` with a predicate returns exactly the stored aggregates
satisfying it — every stored aggregate for which the predicate is true
appears, and nothing else does — and `find_all` with no predicate (the
default `None`) returns all stored aggregates. -/
theorem C5_find_all_filters {T : Type}
    (r : InMemoryAggregateRootRepository T) (p : T → Bool) :
    (∀ a : T, a ∈ (find_all r (some p)).1 ↔ a ∈ r.storage.map Prod.snd ∧ p a = true) ∧
    (find_all r none).1 = r.storage.map Prod.snd := by
  refine ⟨?_, rfl⟩
  intro a
  simp [find_all, List.mem_filter]

/-- C6: `delete a` removes exactly the entry keyed by `aggId a` when present,
leaving every entry at a different identity unchanged (the resulting dict is
the original with only that key filtered out), and is a state-preserving
no-op raising nothing when no entry with that key is present. -/
theorem C6_delete_frame {T : Type} [HasAggregateId T]
    (r : InMemoryAggregateRootRepository T) (a : T) :
    (dictContains r.storage (aggId a) = false → delete r a = ((), r)) ∧
    (keysNodup r.storage →
      ((delete r a).2).storage = r.storage.filter (fun p => !decide (p.1 = aggId a))) := by
  constructor
  · intro h
    simp [delete, h]
  · intro h
    by_cases hc : dictContains r.storage (aggId a) = true
    · simpa [delete, hc] using dictErase_eq_filter r.storage (aggId a) h
    · have h0 : dictContains r.storage (aggId a) = false := by
        cases hcc : dictContains r.storage (aggId a) with
        | false => rfl
        | true => exact absurd hcc hc
      have hnoop : delete r a = ((), r) := by simp [delete, hc]
      rw [hnoop]
      exact (filter_eq_self_of_not_contains r.storage (aggId a) h0).symm

/-- Witness for C6 at concrete inputs: deleting an absent identity "z" is a
no-op, and deleting "x" (matched by identity, not by value) filters out
exactly that entry from a two-entry store. -/
theorem C6_delete_frame_witness :
    delete (⟨[("x", ⟨"x", 1⟩), ("y", ⟨"y", 2⟩)]⟩ : InMemoryAggregateRootRepository Account)
        (⟨"z", 0⟩ : Account) =
      ((), ⟨[("x", ⟨"x", 1⟩), ("y", ⟨"y", 2⟩)]⟩) ∧
    ((delete (⟨[("x", ⟨"x", 1⟩), ("y", ⟨"y", 2⟩)]⟩ : InMemoryAggregateRootRepository Account)
        (⟨"x", 9⟩ : Account)).2).storage =
      ([("x", ⟨"x", 1⟩), ("y", ⟨"y", 2⟩)] : List (String × Account)).filter
        (fun p => !decide (p.1 = aggId (⟨"x", 9⟩ : Account))) :=
  ⟨(C6_delete_frame (⟨[("x", ⟨"x", 1⟩), ("y", ⟨"y", 2⟩)]⟩ :
      InMemoryAggregateRootRepository Account) ⟨"z", 0⟩).1 (by decide),
   (C6_delete_frame (⟨[("x", ⟨"x", 1⟩), ("y", ⟨"y", 2⟩)]⟩ :
      InMemoryAggregateRootRepository Account) ⟨"x", 9⟩).2 (by decide)⟩

/-- C7: `save_all aggregates` produces the same final store state (and the
same `None` return) as saving each element one at a time in list order:
`save_all` is the left fold of `save` over the list. -/
theorem C7_save_all_is_fold {T : Type} [HasAggregateId T]
    (r : InMemoryAggregateRootRepository T) (l : List T) :
    save_all r l = ((), l.foldl (fun s a => (save s a).2) r) := by
  rw [foldl_save_storage, save_all, saveAllGo_eq_foldl]

/-- C8: after `delete_all` the store is empty: `find_ids` on the resulting
state returns the empty sequence, whatever the prior contents were. -/
theorem C8_delete_all_empties {T : Type} (r : InMemoryAggregateRootRepository T) :
    (find_ids (delete_all r).2).1 = [] := rfl

/-- C9: constructing a repository raises a `TypeError` if and only if the
supplied `aggregate_type` is not a type or is not a subclass of
`AggregateRoot`; with a valid subclass, construction succeeds and stores the
type. -/
theorem C9_init_type_check (v : PyValue) :
    (raisesTypeError (AggregateRootRepository.init v) = true ↔
      (isinstanceType v = false ∨ issubclassAggregateRoot v = false)) ∧
    (issubclassAggregateRoot v = true →
      AggregateRootRepository.init v = Except.ok v) := by
  cases v with
  | cls b =>
    cases b with
    | false =>
      simp [AggregateRootRepository.init, raisesTypeError, isinstanceType,
        issubclassAggregateRoot]
    | true =>
      simp [AggregateRootRepository.init, raisesTypeError, isinstanceType,
        issubclassAggregateRoot]
  | nonclass =>
    simp [AggregateRootRepository.init, raisesTypeError, isinstanceType,
      issubclassAggregateRoot]

/-- Witness for C9 at the three kinds of argument: a valid subclass, a
non-type value and a type outside the `AggregateRoot` hierarchy. -/
theorem C9_init_type_check_witness :
    AggregateRootRepository.init (PyValue.cls true) = Except.ok (PyValue.cls true) ∧
    raisesTypeError (AggregateRootRepository.init PyValue.nonclass) = true ∧
    raisesTypeError (AggregateRootRepository.init (PyValue.cls false)) = true :=
  ⟨(C9_init_type_check (PyValue.cls true)).2 (by decide),
   (C9_init_type_check PyValue.nonclass).1.mpr (by decide),
   (C9_init_type_check (PyValue.cls false)).1.mpr (by decide)⟩

/-- C10: the query operations `exists`, `find`, `find_all` (with or without a
predicate) and `find_ids` leave the stored identity-to-aggregate mapping
unchanged: the state each call returns is the state it was given. -/
theorem C10_queries_preserve_state {T : Type}
    (r : InMemoryAggregateRootRepository T) (k : String) (p : Option (T → Bool)) :
    («exists» r k).2 = r ∧ (find r k).2 = r ∧ (find_all r p).2 = r ∧
    (find_ids r).2 = r := by
  refine ⟨rfl, rfl, ?_, rfl⟩
  cases p <;> rfl
